import Mathlib

/-!
# ADC three-channel conversion example (`main.c`)

A shallow embedding of the firmware's `main` and `user_tcpwm_intr_handler`:

* the globals `adc_conversion_done`, `adc_result_buf`, `channel_id0..2` become
  fields of `State`, next to the observable hardware effects (LED level,
  peripheral calls made, bytes sent to the debug UART);
* the vendor peripheral library is outside the program: every library call is
  recorded as an `HwCall`, its status result (where `main` looks at one) is an
  input, and each `Cy_HPPASS_FIFO_Read` takes the FIFO entry it pops as input;
* an access to `adc_result_buf` outside its 16 slots has no defined behaviour
  in C: the embedding returns `none` there.
-/

namespace AdcExample

/-! ## Data model -/

/-- The number of ADC channels, `#define ADC_CHANNNELS_NUM (16U)`. -/
def ADC_CHANNNELS_NUM : Nat := 16

/-- The peripheral-library calls that `main` and the interrupt handler make. -/
inductive HwCall where
  | cybsp_init
  | Cy_HPPASS_AC_Start
  | Cy_SCB_UART_Init
  | Cy_SCB_UART_Enable
  | mtb_hal_uart_setup
  | cy_retarget_io_init
  | Cy_TCPWM_PWM_Init
  | Cy_TCPWM_PWM_Enable
  | Cy_SysInt_Init
  | NVIC_EnableIRQ
  | __enable_irq
  | Cy_TCPWM_TriggerStart_Single
  | Cy_TCPWM_GetInterruptStatusMasked
  | Cy_TCPWM_ClearInterrupt (intrStatus : Nat)
  | Cy_HPPASS_FIFO_Read
  | Cy_GPIO_Inv
  deriving DecidableEq, Repr

/-- The globals of `main.c` together with the observable hardware state. -/
structure State where
  /-- `volatile uint8_t adc_conversion_done`. -/
  adc_conversion_done : Nat
  /-- `uint16_t adc_result_buf[ADC_CHANNNELS_NUM]`. -/
  adc_result_buf : List Nat
  /-- `uint8_t channel_id0`. -/
  channel_id0 : Nat
  /-- `uint8_t channel_id1`. -/
  channel_id1 : Nat
  /-- `uint8_t channel_id2`. -/
  channel_id2 : Nat
  /-- Output level of the user LED pin. -/
  led : Bool
  /-- Peripheral calls made since the loop was entered, oldest first. -/
  hw : List HwCall
  /-- Bytes written to the debug UART by `printf`, oldest first. -/
  uart : List Char
  deriving DecidableEq, Repr

/-- The state when `main` enters its loop: the globals hold their initialisers
(`0U`, `{0U}`), nothing has been printed; the LED level is whatever the board
starts with. -/
def bootState (led : Bool) : State :=
  { adc_conversion_done := 0
    adc_result_buf := List.replicate ADC_CHANNNELS_NUM 0
    channel_id0 := 0
    channel_id1 := 0
    channel_id2 := 0
    led := led
    hw := []
    uart := [] }

/-- One entry of the hardware FIFO: what one `Cy_HPPASS_FIFO_Read` pops. The
call returns `result` and writes `chan` through its `uint8_t *` argument. -/
structure FifoEntry where
  result : Nat
  chan : Nat
  deriving DecidableEq, Repr

/-- The order in which `adc_result_buf[channel_idK] = Cy_HPPASS_FIFO_Read(0U,
&channel_idK)` evaluates its two operands. C leaves it open (the operands of an
assignment are unsequenced and a call is indeterminately sequenced with the
other evaluations of the caller): the index is read either before the call
writes `channel_idK` or after it. Compiled code makes the call first and
indexes with the ID the pop wrote (`callFirst`); the statements on where a
sample lands are for that order, the others hold for both. -/
inductive EvalOrder where
  | indexFirst
  | callFirst
  deriving DecidableEq, Repr

/-- Store into `adc_result_buf`: defined only for an index inside the array;
the slot is a `uint16_t`. -/
def writeBuf (buf : List Nat) (idx v : Nat) : Option (List Nat) :=
  if idx < ADC_CHANNNELS_NUM then some (buf.set idx (v % 65536)) else none

/-- Load from `adc_result_buf`: defined only for an index inside the array. -/
def readBuf (buf : List Nat) (idx : Nat) : Option Nat :=
  if idx < ADC_CHANNNELS_NUM then some (buf.getD idx 0) else none

/-- The index that `adc_result_buf[chan] = Cy_HPPASS_FIFO_Read(0U, &chan);`
stores at: the value of `chan` before the call, or the `uint8_t` the call wrote
to it. -/
def storeIndex (ord : EvalOrder) (e : FifoEntry) (chan : Nat) : Nat :=
  match ord with
  | .indexFirst => chan
  | .callFirst => e.chan % 256

/-- The statement `adc_result_buf[chan] = Cy_HPPASS_FIFO_Read(0U, &chan);` for
one of the three channel-ID variables: returns the new buffer and the new value
of the variable (a `uint8_t`). -/
def storeFifoRead (ord : EvalOrder) (e : FifoEntry) (buf : List Nat) (chan : Nat) :
    Option (List Nat × Nat) :=
  match writeBuf buf (storeIndex ord e chan) e.result with
  | some buf' => some (buf', e.chan % 256)
  | none => none

/-- What one run of the interrupt handler takes from its environment: the
masked interrupt status, the three FIFO entries popped, and the evaluation
order taken by each of the three assignments. -/
structure IrqInput where
  intrStatus : Nat
  e0 : FifoEntry
  e1 : FifoEntry
  e2 : FifoEntry
  ord0 : EvalOrder
  ord1 : EvalOrder
  ord2 : EvalOrder
  deriving DecidableEq, Repr

/-! ## The interrupt handler -/

/-- The function `user_tcpwm_intr_handler`. -/
def user_tcpwm_intr_handler (i : IrqInput) (s : State) : Option State :=
  -- uint32_t intrStatus = Cy_TCPWM_GetInterruptStatusMasked(...);
  -- Cy_TCPWM_ClearInterrupt(..., intrStatus);
  let hw1 := s.hw ++ [HwCall.Cy_TCPWM_GetInterruptStatusMasked,
                      HwCall.Cy_TCPWM_ClearInterrupt i.intrStatus]
  -- adc_result_buf[channel_id0] = Cy_HPPASS_FIFO_Read(0U, &channel_id0);
  match storeFifoRead i.ord0 i.e0 s.adc_result_buf s.channel_id0 with
  | none => none
  | some (buf1, c0) =>
    -- adc_result_buf[channel_id1] = Cy_HPPASS_FIFO_Read(0U, &channel_id1);
    match storeFifoRead i.ord1 i.e1 buf1 s.channel_id1 with
    | none => none
    | some (buf2, c1) =>
      -- adc_result_buf[channel_id2] = Cy_HPPASS_FIFO_Read(0U, &channel_id2);
      match storeFifoRead i.ord2 i.e2 buf2 s.channel_id2 with
      | none => none
      | some (buf3, c2) =>
        some
          { -- adc_conversion_done = 1U;
            adc_conversion_done := 1
            adc_result_buf := buf3
            channel_id0 := c0
            channel_id1 := c1
            channel_id2 := c2
            -- Cy_GPIO_Inv(CYBSP_USER_LED_PORT, CYBSP_USER_LED_PIN);
            led := !s.led
            hw := hw1 ++ [HwCall.Cy_HPPASS_FIFO_Read, HwCall.Cy_HPPASS_FIFO_Read,
                          HwCall.Cy_HPPASS_FIFO_Read, HwCall.Cy_GPIO_Inv]
            uart := s.uart }

/-! ## The main loop -/

/-- The conversions of `printf` that the program uses: `%d` (decimal) and `%x`
(lowercase hexadecimal, no padding), each consuming one argument; every other
character of the format is copied. The arguments here are promoted `uint8_t` and
`uint16_t` values, so they are never negative. -/
def printf : List Char → List Nat → List Char
  | [], _ => []
  | '%' :: 'd' :: fmt, a :: args => Nat.toDigits 10 a ++ printf fmt args
  | '%' :: 'x' :: fmt, a :: args => Nat.toDigits 16 a ++ printf fmt args
  | c :: fmt, args => c :: printf fmt args

/-- The format of the first `printf` of the loop, `"\x1b[2J\x1b[;H"`. -/
def clearScreenFormat : List Char :=
  ['\x1b', '[', '2', 'J', '\x1b', '[', ';', 'H']

/-- The format of the second `printf` of the loop. -/
def resultFormat : List Char :=
  "ADC Result - AN_A%d: 0x%x, AN_A%d: 0x%x, AN_A%d: 0x%x\r\n\r\n".toList

/-- The statement `adc_conversion_done = 0U;`. -/
def clearFlag (s : State) : State :=
  { s with adc_conversion_done := 0 }

/-- The statement `printf("\x1b[2J\x1b[;H");`. -/
def printClearScreen (s : State) : State :=
  { s with uart := s.uart ++ printf clearScreenFormat [] }

/-- The statement `printf("ADC Result - ...", channel_id0,
adc_result_buf[channel_id0], channel_id1, adc_result_buf[channel_id1],
channel_id2, adc_result_buf[channel_id2]);`. -/
def printResults (s : State) : Option State :=
  match readBuf s.adc_result_buf s.channel_id0,
        readBuf s.adc_result_buf s.channel_id1,
        readBuf s.adc_result_buf s.channel_id2 with
  | some r0, some r1, some r2 =>
    let args := [s.channel_id0, r0, s.channel_id1, r1, s.channel_id2, r2]
    some { s with uart := s.uart ++ printf resultFormat args }
  | _, _, _ => none

/-- One iteration of the `for (;;)` loop of `main`, run without an interrupt
in between. -/
def main_loop_iteration (s : State) : Option State :=
  if s.adc_conversion_done ≠ 0 then
    printResults (printClearScreen (clearFlag s))
  else
    some s

/-! ## Initialisation in `main` -/

/-- What a status-returning library call reports: its success code
(`CY_RSLT_SUCCESS`, `CY_HPPASS_SUCCESS`, `CY_TCPWM_SUCCESS`, ...) or anything
else. -/
inductive Status where
  | success
  | failure
  deriving DecidableEq, Repr

/-- The status reported by each initialisation call of `main` that returns
one. -/
structure InitResults where
  cybsp_init : Status
  Cy_HPPASS_AC_Start : Status
  Cy_SCB_UART_Init : Status
  mtb_hal_uart_setup : Status
  cy_retarget_io_init : Status
  Cy_TCPWM_PWM_Init : Status
  Cy_SysInt_Init : Status
  deriving DecidableEq, Repr

/-- How the code of `main` before the `for (;;)` loop ends. -/
inductive Outcome where
  | halted
  | entersLoop
  deriving DecidableEq, Repr

/-- The run of `main` up to the loop: the library calls made, in order, and how
it ended. -/
structure Boot where
  calls : List HwCall
  outcome : Outcome
  deriving DecidableEq, Repr

/-- Modelled from the spec: the macro `CY_ASSERT` of the vendor library (its
text is not among the sources), applied to `0`. The spec describes it as
"an unconditional fatal trap halting the program with no recovery": the run ends
with the calls made so far. -/
def CY_ASSERT_0 (calls : List HwCall) : Boot :=
  { calls := calls, outcome := Outcome.halted }

/-- The body of `main` from its first statement to the entry of the loop. -/
def main_init (r : InitResults) : Boot :=
  -- result = cybsp_init(); if (result != CY_RSLT_SUCCESS) CY_ASSERT(0);
  let t := [HwCall.cybsp_init]
  if r.cybsp_init ≠ Status.success then CY_ASSERT_0 t else
  -- if (CY_HPPASS_SUCCESS != Cy_HPPASS_AC_Start(0U, 1000U)) CY_ASSERT(0);
  let t := t ++ [HwCall.Cy_HPPASS_AC_Start]
  if Status.success ≠ r.Cy_HPPASS_AC_Start then CY_ASSERT_0 t else
  -- result = (cy_rslt_t)Cy_SCB_UART_Init(...); if (result != CY_RSLT_SUCCESS) CY_ASSERT(0);
  let t := t ++ [HwCall.Cy_SCB_UART_Init]
  if r.Cy_SCB_UART_Init ≠ Status.success then CY_ASSERT_0 t else
  -- Cy_SCB_UART_Enable(DEBUG_UART_HW);
  let t := t ++ [HwCall.Cy_SCB_UART_Enable]
  -- result = mtb_hal_uart_setup(...); if (result != CY_RSLT_SUCCESS) CY_ASSERT(0);
  let t := t ++ [HwCall.mtb_hal_uart_setup]
  if r.mtb_hal_uart_setup ≠ Status.success then CY_ASSERT_0 t else
  -- result = cy_retarget_io_init(...); if (result != CY_RSLT_SUCCESS) CY_ASSERT(0);
  let t := t ++ [HwCall.cy_retarget_io_init]
  if r.cy_retarget_io_init ≠ Status.success then CY_ASSERT_0 t else
  -- if (CY_TCPWM_SUCCESS != Cy_TCPWM_PWM_Init(...)) CY_ASSERT(0);
  let t := t ++ [HwCall.Cy_TCPWM_PWM_Init]
  if Status.success ≠ r.Cy_TCPWM_PWM_Init then CY_ASSERT_0 t else
  -- Cy_TCPWM_PWM_Enable(USER_TCPWM_HW, USER_TCPWM_NUM);
  let t := t ++ [HwCall.Cy_TCPWM_PWM_Enable]
  -- Cy_SysInt_Init(&tcpwm_intr_config, user_tcpwm_intr_handler);   (result not used)
  let t := t ++ [HwCall.Cy_SysInt_Init]
  -- NVIC_EnableIRQ(tcpwm_intr_config.intrSrc);
  let t := t ++ [HwCall.NVIC_EnableIRQ]
  -- __enable_irq();
  let t := t ++ [HwCall.__enable_irq]
  -- Cy_TCPWM_TriggerStart_Single(USER_TCPWM_HW, USER_TCPWM_NUM);
  let t := t ++ [HwCall.Cy_TCPWM_TriggerStart_Single]
  -- for (;;)
  { calls := t, outcome := Outcome.entersLoop }

/-- Every status-returning call reports success. -/
def allSuccess : InitResults :=
  { cybsp_init := Status.success
    Cy_HPPASS_AC_Start := Status.success
    Cy_SCB_UART_Init := Status.success
    mtb_hal_uart_setup := Status.success
    cy_retarget_io_init := Status.success
    Cy_TCPWM_PWM_Init := Status.success
    Cy_SysInt_Init := Status.success }

/-! ## The main loop interleaved with the interrupt -/

/-- Where the foreground code stands inside the loop body. -/
inductive MainPc where
  /-- Before `if(adc_conversion_done)`. -/
  | test
  /-- Before `adc_conversion_done = 0U;`. -/
  | clear
  /-- Before the first `printf`. -/
  | printEsc
  /-- Before the second `printf`. -/
  | printLine
  deriving DecidableEq, Repr

/-- One step of the foreground loop: the statement at `pc`. -/
def mainStep (pc : MainPc) (s : State) : Option (MainPc × State) :=
  match pc with
  | .test => if s.adc_conversion_done ≠ 0 then some (.clear, s) else some (.test, s)
  | .clear => some (.printEsc, clearFlag s)
  | .printEsc => some (.printLine, printClearScreen s)
  | .printLine =>
    match printResults s with
    | some s' => some (.test, s')
    | none => none

/-- What happens next: the interrupt fires and its handler runs to completion,
or the foreground loop executes the statement it stands at. -/
inductive Event where
  | irq (i : IrqInput)
  | main
  deriving DecidableEq, Repr

/-- What a step did. -/
inductive Label where
  | handlerRun
  | flagTest
  | flagClear
  | printEscape
  | printLine
  deriving DecidableEq, Repr

/-- The label of the foreground statement at `pc`. -/
def MainPc.label : MainPc → Label
  | .test => Label.flagTest
  | .clear => Label.flagClear
  | .printEsc => Label.printEscape
  | .printLine => Label.printLine

/-- The foreground position together with the shared state. -/
structure Sys where
  pc : MainPc
  st : State
  deriving DecidableEq, Repr

/-- The system when the loop is entered. -/
def bootSys (led : Bool) : Sys :=
  { pc := MainPc.test, st := bootState led }

/-- One step of the interleaved system. -/
def sysStep (ev : Event) (y : Sys) : Option (Label × Sys) :=
  match ev with
  | .irq i =>
    match user_tcpwm_intr_handler i y.st with
    | some s' => some (Label.handlerRun, { pc := y.pc, st := s' })
    | none => none
  | .main =>
    match mainStep y.pc y.st with
    | some (pc', s') => some (y.pc.label, { pc := pc', st := s' })
    | none => none

/-- Run a schedule: the labels of the steps taken and the system reached. -/
def exec : List Event → Sys → Option (List Label × Sys)
  | [], y => some ([], y)
  | ev :: rest, y =>
    match sysStep ev y with
    | none => none
    | some (l, y') =>
      match exec rest y' with
      | none => none
      | some (ls, y'') => some (l :: ls, y'')

/-- Run the handler once per input, with no foreground step in between. -/
def runHandlers : List IrqInput → State → Option State
  | [], s => some s
  | i :: rest, s =>
    match user_tcpwm_intr_handler i s with
    | none => none
    | some s' => runHandlers rest s'

/-! ## Predicates used in the statements -/

/-- The three channel-ID variables index inside `adc_result_buf`. -/
def idsInBounds (s : State) : Prop :=
  s.channel_id0 < ADC_CHANNNELS_NUM ∧ s.channel_id1 < ADC_CHANNNELS_NUM ∧
    s.channel_id2 < ADC_CHANNNELS_NUM

instance (s : State) : Decidable (idsInBounds s) := by
  unfold idsInBounds; infer_instance

/-- Every FIFO read of the run reports a channel ID in `0..15`. -/
def chansInBounds (i : IrqInput) : Prop :=
  i.e0.chan < ADC_CHANNNELS_NUM ∧ i.e1.chan < ADC_CHANNNELS_NUM ∧
    i.e2.chan < ADC_CHANNNELS_NUM

instance (i : IrqInput) : Decidable (chansInBounds i) := by
  unfold chansInBounds; infer_instance

/-- Every FIFO read of the run returns a 16-bit sample. -/
def samples16 (i : IrqInput) : Prop :=
  i.e0.result < 65536 ∧ i.e1.result < 65536 ∧ i.e2.result < 65536

instance (i : IrqInput) : Decidable (samples16 i) := by
  unfold samples16; infer_instance

/-- Each of the three assignments of the run calls `Cy_HPPASS_FIFO_Read` before
it reads the index. -/
def callsFirst (i : IrqInput) : Prop :=
  i.ord0 = EvalOrder.callFirst ∧ i.ord1 = EvalOrder.callFirst ∧ i.ord2 = EvalOrder.callFirst

instance (i : IrqInput) : Decidable (callsFirst i) := by
  unfold callsFirst; infer_instance

/-- The state a handler run ends in, when its three stores are inside the
array. -/
def handlerResult (i : IrqInput) (s : State) : State :=
  { adc_conversion_done := 1
    adc_result_buf :=
      ((s.adc_result_buf.set (storeIndex i.ord0 i.e0 s.channel_id0) (i.e0.result % 65536)).set
        (storeIndex i.ord1 i.e1 s.channel_id1) (i.e1.result % 65536)).set
        (storeIndex i.ord2 i.e2 s.channel_id2) (i.e2.result % 65536)
    channel_id0 := i.e0.chan % 256
    channel_id1 := i.e1.chan % 256
    channel_id2 := i.e2.chan % 256
    led := !s.led
    hw := s.hw ++ [HwCall.Cy_TCPWM_GetInterruptStatusMasked,
                   HwCall.Cy_TCPWM_ClearInterrupt i.intrStatus,
                   HwCall.Cy_HPPASS_FIFO_Read, HwCall.Cy_HPPASS_FIFO_Read,
                   HwCall.Cy_HPPASS_FIFO_Read, HwCall.Cy_GPIO_Inv]
    uart := s.uart }

/-- The bytes of the clear-screen sequence, `ESC [ 2 J ESC [ ; H`. -/
def clearScreenBytes : List Char :=
  [Char.ofNat 27, '[', '2', 'J', Char.ofNat 27, '[', ';', 'H']

/-- The result line as the interface describes it: the text
`ADC Result - AN_A<id0>: 0x<h0>, AN_A<id1>: 0x<h1>, AN_A<id2>: 0x<h2>` with the
IDs in decimal and the values in lowercase hexadecimal without padding, followed
by CR LF CR LF. -/
def resultLine (id0 h0 id1 h1 id2 h2 : Nat) : List Char :=
  "ADC Result - AN_A".toList ++ (Nat.toDigits 10 id0 ++ (": 0x".toList ++ (Nat.toDigits 16 h0 ++
    (", AN_A".toList ++ (Nat.toDigits 10 id1 ++ (": 0x".toList ++ (Nat.toDigits 16 h1 ++
    (", AN_A".toList ++ (Nat.toDigits 10 id2 ++ (": 0x".toList ++ (Nat.toDigits 16 h2 ++
    [Char.ofNat 13, Char.ofNat 10, Char.ofNat 13, Char.ofNat 10])))))))))))

/-- The result line for the state `s`: `channel_idK` and
`adc_result_buf[channel_idK]` for the three channel-ID variables. -/
def printedLine (s : State) : List Char :=
  resultLine s.channel_id0 (s.adc_result_buf.getD s.channel_id0 0)
    s.channel_id1 (s.adc_result_buf.getD s.channel_id1 0)
    s.channel_id2 (s.adc_result_buf.getD s.channel_id2 0)

/-- Everything one printing iteration sends to the UART for the state `s`. -/
def printedBytes (s : State) : List Char :=
  clearScreenBytes ++ printedLine s

/-- The state a printing iteration ends in. -/
def printedState (s : State) : State :=
  { s with adc_conversion_done := 0, uart := s.uart ++ printedBytes s }

/-- An interrupt popping one sample for each of the configured channels AN_A0,
AN_A1 and AN_A7, with each of the three assignments reading its index before it
calls `Cy_HPPASS_FIFO_Read` (the order C permits besides `callFirst`). -/
def firstIrqIndexFirst : IrqInput :=
  { intrStatus := 1
    e0 := { result := 0x111, chan := 0 }
    e1 := { result := 0x222, chan := 1 }
    e2 := { result := 0x333, chan := 7 }
    ord0 := EvalOrder.indexFirst
    ord1 := EvalOrder.indexFirst
    ord2 := EvalOrder.indexFirst }

/-- The old buffer updated in order with slot `c0 := v0`, slot `c1 := v1`,
slot `c2 := v2`, for the three FIFO entries `(v0,c0)`, `(v1,c1)`, `(v2,c2)` of a
run. -/
def storedAtReportedIds (buf : List Nat) (i : IrqInput) : List Nat :=
  ((buf.set i.e0.chan i.e0.result).set i.e1.chan i.e1.result).set i.e2.chan i.e2.result

/-- The most recent sample popped for channel `c` in the handler run `i`, if the
run popped one for it. -/
def lastSampleFor (i : IrqInput) (c : Nat) : Option Nat :=
  (([i.e0, i.e1, i.e2].reverse.find? (fun e => e.chan = c)).map (fun e => e.result))

/-- An interrupt whose first and third pops report the same channel: the FIFO
holds (0x111, AN_A1), (0x222, AN_A7), (0x333, AN_A1). -/
def repeatedChannelIrq : IrqInput :=
  { intrStatus := 1
    e0 := { result := 0x111, chan := 1 }
    e1 := { result := 0x222, chan := 7 }
    e2 := { result := 0x333, chan := 1 }
    ord0 := EvalOrder.callFirst
    ord1 := EvalOrder.callFirst
    ord2 := EvalOrder.callFirst }

/-- A state with the flag set, channel IDs 0, 1, 7 and samples in their slots. -/
def sampleState : State :=
  { adc_conversion_done := 1
    adc_result_buf := [0x111, 0x222, 0, 0, 0, 0, 0, 0xabc, 0, 0, 0, 0, 0, 0, 0, 0]
    channel_id0 := 0
    channel_id1 := 1
    channel_id2 := 7
    led := true
    hw := []
    uart := [] }

/-- The LED level after `n` inversions. -/
def flipped (n : Nat) (led : Bool) : Bool :=
  Nat.iterate not n led

/-- An interrupt popping the three configured channels, each assignment calling
`Cy_HPPASS_FIFO_Read` before it reads its index. -/
def irqCallFirst : IrqInput :=
  { intrStatus := 1
    e0 := { result := 0x444, chan := 0 }
    e1 := { result := 0x555, chan := 1 }
    e2 := { result := 0x666, chan := 7 }
    ord0 := EvalOrder.callFirst
    ord1 := EvalOrder.callFirst
    ord2 := EvalOrder.callFirst }

/-- A FIFO input whose first entry reports channel ID 16. -/
def irqChan16 (intrStatus : Nat) (o0 o1 o2 : EvalOrder) : IrqInput :=
  { intrStatus := intrStatus
    e0 := { result := 0, chan := 16 }
    e1 := { result := 0, chan := 0 }
    e2 := { result := 0, chan := 0 }
    ord0 := o0
    ord1 := o1
    ord2 := o2 }

/-- Every call succeeds except `Cy_SysInt_Init`. -/
def sysIntInitFails : InitResults :=
  { allSuccess with Cy_SysInt_Init := Status.failure }

/-- The calls of a fully successful initialisation that come before
`__enable_irq`. -/
def callsBeforeEnableIrq : List HwCall :=
  [HwCall.cybsp_init, HwCall.Cy_HPPASS_AC_Start, HwCall.Cy_SCB_UART_Init,
   HwCall.Cy_SCB_UART_Enable, HwCall.mtb_hal_uart_setup, HwCall.cy_retarget_io_init,
   HwCall.Cy_TCPWM_PWM_Init, HwCall.Cy_TCPWM_PWM_Enable, HwCall.Cy_SysInt_Init,
   HwCall.NVIC_EnableIRQ]

/-- The six initialisation calls whose status `main` tests all report success. -/
def checkedCallsSucceed (r : InitResults) : Prop :=
  r.cybsp_init = Status.success ∧ r.Cy_HPPASS_AC_Start = Status.success ∧
  r.Cy_SCB_UART_Init = Status.success ∧ r.mtb_hal_uart_setup = Status.success ∧
  r.cy_retarget_io_init = Status.success ∧ r.Cy_TCPWM_PWM_Init = Status.success

instance (r : InitResults) : Decidable (checkedCallsSucceed r) := by
  unfold checkedCallsSucceed; infer_instance

/-- The property C6 states of the labels of an execution: between any two
prints of a result line there is a handler run (which sets the flag again). -/
def SetAgainBetweenPrints (ls : List Label) : Prop :=
  ∀ i j : Nat, i < j → ls[i]? = some Label.printLine → ls[j]? = some Label.printLine →
    ∃ k : Nat, i < k ∧ k < j ∧ ls[k]? = some Label.handlerRun

/-- An interrupt popping one sample for each of AN_A0, AN_A1, AN_A7. -/
def irqA : IrqInput :=
  { intrStatus := 1
    e0 := { result := 0x111, chan := 0 }
    e1 := { result := 0x222, chan := 1 }
    e2 := { result := 0x333, chan := 7 }
    ord0 := EvalOrder.callFirst
    ord1 := EvalOrder.callFirst
    ord2 := EvalOrder.callFirst }

/-- A schedule in which the second interrupt arrives after the loop has cleared
the flag for the first one and before it prints: interrupt A, flag test, flag
clear, interrupt B, the two `printf`s, then a second full iteration. -/
def raceSchedule : List Event :=
  [Event.irq irqA, Event.main, Event.main, Event.irq irqCallFirst, Event.main, Event.main,
   Event.main, Event.main, Event.main, Event.main]

/-- The number of further result lines the loop can print from `y` without
another handler run. -/
def printCredit (y : Sys) : Nat :=
  match y.pc with
  | .test => if y.st.adc_conversion_done ≠ 0 then 1 else 0
  | .clear => 1
  | .printEsc => 1 + (if y.st.adc_conversion_done ≠ 0 then 1 else 0)
  | .printLine => 1 + (if y.st.adc_conversion_done ≠ 0 then 1 else 0)

/-- The number of interrupts in a schedule. -/
def irqCount : List Event → Nat
  | [] => 0
  | Event.irq _ :: rest => irqCount rest + 1
  | Event.main :: rest => irqCount rest

/-- Between any two flag clears there is a handler run (which sets the flag
again). -/
def SetAgainBetweenClears (ls : List Label) : Prop :=
  ∀ i j : Nat, i < j → ls[i]? = some Label.flagClear → ls[j]? = some Label.flagClear →
    ∃ k : Nat, i < k ∧ k < j ∧ ls[k]? = some Label.handlerRun

/-- The flag is 0 and the loop does not stand at the flag clear. -/
def disarmed (y : Sys) : Prop :=
  y.st.adc_conversion_done = 0 ∧ y.pc ≠ MainPc.clear

instance (y : Sys) : Decidable (disarmed y) := by
  unfold disarmed; infer_instance

/-! ## Basic facts about the handler -/

theorem storeIndex_lt (ord : EvalOrder) (e : FifoEntry) (chan : Nat)
    (hc : chan < ADC_CHANNNELS_NUM) (he : e.chan < ADC_CHANNNELS_NUM) :
    storeIndex ord e chan < ADC_CHANNNELS_NUM := by
  unfold ADC_CHANNNELS_NUM at *
  cases ord
  · simpa [storeIndex] using hc
  · simp only [storeIndex]; omega

theorem storeFifoRead_eq (ord : EvalOrder) (e : FifoEntry) (buf : List Nat) (chan : Nat)
    (h : storeIndex ord e chan < ADC_CHANNNELS_NUM) :
    storeFifoRead ord e buf chan
      = some (buf.set (storeIndex ord e chan) (e.result % 65536), e.chan % 256) := by
  simp [storeFifoRead, writeBuf, h]

theorem storeFifoRead_none (ord : EvalOrder) (e : FifoEntry) (buf : List Nat) (chan : Nat)
    (h : ¬ storeIndex ord e chan < ADC_CHANNNELS_NUM) :
    storeFifoRead ord e buf chan = none := by
  simp [storeFifoRead, writeBuf, h]

theorem handler_eq (i : IrqInput) (s : State)
    (h0 : storeIndex i.ord0 i.e0 s.channel_id0 < ADC_CHANNNELS_NUM)
    (h1 : storeIndex i.ord1 i.e1 s.channel_id1 < ADC_CHANNNELS_NUM)
    (h2 : storeIndex i.ord2 i.e2 s.channel_id2 < ADC_CHANNNELS_NUM) :
    user_tcpwm_intr_handler i s = some (handlerResult i s) := by
  simp [user_tcpwm_intr_handler, storeFifoRead_eq, h0, h1, h2, handlerResult]

theorem handler_some_iff (i : IrqInput) (s s' : State) :
    user_tcpwm_intr_handler i s = some s' ↔
      (storeIndex i.ord0 i.e0 s.channel_id0 < ADC_CHANNNELS_NUM ∧
       storeIndex i.ord1 i.e1 s.channel_id1 < ADC_CHANNNELS_NUM ∧
       storeIndex i.ord2 i.e2 s.channel_id2 < ADC_CHANNNELS_NUM) ∧ s' = handlerResult i s := by
  constructor
  · intro h
    by_cases h0 : storeIndex i.ord0 i.e0 s.channel_id0 < ADC_CHANNNELS_NUM
    · by_cases h1 : storeIndex i.ord1 i.e1 s.channel_id1 < ADC_CHANNNELS_NUM
      · by_cases h2 : storeIndex i.ord2 i.e2 s.channel_id2 < ADC_CHANNNELS_NUM
        · rw [handler_eq i s h0 h1 h2] at h
          exact ⟨⟨h0, h1, h2⟩, (Option.some.inj h).symm⟩
        · simp [user_tcpwm_intr_handler, storeFifoRead_eq, storeFifoRead_none, h0, h1, h2] at h
      · simp [user_tcpwm_intr_handler, storeFifoRead_eq, storeFifoRead_none, h0, h1] at h
    · simp [user_tcpwm_intr_handler, storeFifoRead_none, h0] at h
  · rintro ⟨⟨h0, h1, h2⟩, rfl⟩
    exact handler_eq i s h0 h1 h2

theorem handler_defined (i : IrqInput) (s : State) (hs : idsInBounds s)
    (hi : chansInBounds i) : user_tcpwm_intr_handler i s = some (handlerResult i s) :=
  handler_eq i s (storeIndex_lt _ _ _ hs.1 hi.1) (storeIndex_lt _ _ _ hs.2.1 hi.2.1)
    (storeIndex_lt _ _ _ hs.2.2 hi.2.2)

theorem handlerResult_idsInBounds (i : IrqInput) (s : State) (hi : chansInBounds i) :
    idsInBounds (handlerResult i s) := by
  obtain ⟨h0, h1, h2⟩ := hi
  unfold ADC_CHANNNELS_NUM at *
  refine ⟨?_, ?_, ?_⟩ <;> simp only [handlerResult, ADC_CHANNNELS_NUM] <;> omega

/-! ## The main loop: basic facts -/

theorem printf_clearScreenFormat : printf clearScreenFormat [] = clearScreenBytes := by
  decide

theorem printf_resultFormat (a b c d e f : Nat) :
    printf resultFormat [a, b, c, d, e, f] = resultLine a b c d e f := by
  rfl

theorem printResults_eq (s : State) (hs : idsInBounds s) :
    printResults s = some { s with uart := s.uart ++ printedLine s } := by
  obtain ⟨h0, h1, h2⟩ := hs
  simp [printResults, readBuf, h0, h1, h2, printf_resultFormat, printedLine]

theorem printResults_some_iff (s s' : State) :
    printResults s = some s' ↔ idsInBounds s ∧ s' = { s with uart := s.uart ++ printedLine s } := by
  constructor
  · intro h
    by_cases hs : idsInBounds s
    · rw [printResults_eq s hs] at h
      exact ⟨hs, (Option.some.inj h).symm⟩
    · exfalso
      unfold idsInBounds at hs
      unfold printResults readBuf at h
      by_cases h0 : s.channel_id0 < ADC_CHANNNELS_NUM
      · by_cases h1 : s.channel_id1 < ADC_CHANNNELS_NUM
        · by_cases h2 : s.channel_id2 < ADC_CHANNNELS_NUM
          · exact hs ⟨h0, h1, h2⟩
          · simp [h0, h1, h2] at h
        · simp [h0, h1] at h
      · simp [h0] at h
  · rintro ⟨hs, rfl⟩
    exact printResults_eq s hs

theorem main_loop_iteration_idle (s : State) (h : s.adc_conversion_done = 0) :
    main_loop_iteration s = some s := by
  simp [main_loop_iteration, h]

theorem main_loop_iteration_print (s : State) (h : s.adc_conversion_done ≠ 0)
    (hs : idsInBounds s) : main_loop_iteration s = some (printedState s) := by
  have hs' : idsInBounds (printClearScreen (clearFlag s)) := hs
  simp only [main_loop_iteration, h, ne_eq, not_false_eq_true, if_true]
  rw [printResults_eq _ hs']
  simp [printedState, printedBytes, printedLine, printClearScreen, clearFlag,
    printf_clearScreenFormat, List.append_assoc]

theorem main_loop_iteration_some (s s' : State) (h : main_loop_iteration s = some s') :
    (s.adc_conversion_done = 0 ∧ s' = s) ∨
      (s.adc_conversion_done ≠ 0 ∧ idsInBounds s ∧ s' = printedState s) := by
  by_cases hf : s.adc_conversion_done = 0
  · rw [main_loop_iteration_idle s hf] at h
    exact Or.inl ⟨hf, (Option.some.inj h).symm⟩
  · right
    have h' := h
    simp only [main_loop_iteration, hf, ne_eq, not_false_eq_true, if_true] at h'
    have hs : idsInBounds s := ((printResults_some_iff _ _).1 h').1
    rw [main_loop_iteration_print s hf hs] at h
    exact ⟨hf, hs, (Option.some.inj h).symm⟩

/-- The small steps of the loop agree with `main_loop_iteration`: without an
interrupt in between, the flag test alone (flag 0) or the four steps test,
clear, `printf`, `printf` (flag non-zero) bring the loop back to the test with
the state the iteration returns. -/
theorem main_steps_agree (s : State) :
    (s.adc_conversion_done = 0 →
      (exec [Event.main] { pc := MainPc.test, st := s }).map (fun p => p.2)
        = (main_loop_iteration s).map (fun s' => { pc := MainPc.test, st := s' })) ∧
    (s.adc_conversion_done ≠ 0 →
      (exec [Event.main, Event.main, Event.main, Event.main]
          { pc := MainPc.test, st := s }).map (fun p => p.2)
        = (main_loop_iteration s).map (fun s' => { pc := MainPc.test, st := s' })) := by
  constructor
  · intro h
    simp [exec, sysStep, mainStep, main_loop_iteration, h]
  · intro h
    cases hp : printResults (printClearScreen (clearFlag s)) with
    | none => simp [exec, sysStep, mainStep, main_loop_iteration, h, hp]
    | some s' => simp [exec, sysStep, mainStep, main_loop_iteration, h, hp]

/-! ## Where the handler stores each sample -/

theorem getD_set_self (buf : List Nat) (c v : Nat) (h : c < buf.length) :
    (buf.set c v).getD c 0 = v := by
  simp [List.getD_eq_getElem?_getD, List.getElem?_set, h]

theorem getD_set_other (buf : List Nat) (c d v : Nat) (h : c ≠ d) :
    (buf.set c v).getD d 0 = buf.getD d 0 := by
  simp [List.getD_eq_getElem?_getD, List.getElem?_set, h]

/-- When each assignment calls `Cy_HPPASS_FIFO_Read` before it reads its index,
the run is defined and ends with the channel-ID variables at the popped IDs
and the buffer updated at those IDs. -/
theorem handlerResult_callsFirst (i : IrqInput) (s : State)
    (hi : chansInBounds i) (hv : samples16 i) (ho : callsFirst i) :
    user_tcpwm_intr_handler i s = some (handlerResult i s) ∧
      (handlerResult i s).channel_id0 = i.e0.chan ∧
      (handlerResult i s).channel_id1 = i.e1.chan ∧
      (handlerResult i s).channel_id2 = i.e2.chan ∧
      (handlerResult i s).adc_result_buf = storedAtReportedIds s.adc_result_buf i := by
  obtain ⟨h0, h1, h2⟩ := hi
  obtain ⟨v0, v1, v2⟩ := hv
  obtain ⟨o0, o1, o2⟩ := ho
  unfold ADC_CHANNNELS_NUM at h0 h1 h2
  have m0 : i.e0.chan % 256 = i.e0.chan := Nat.mod_eq_of_lt (by omega)
  have m1 : i.e1.chan % 256 = i.e1.chan := Nat.mod_eq_of_lt (by omega)
  have m2 : i.e2.chan % 256 = i.e2.chan := Nat.mod_eq_of_lt (by omega)
  have r0 : i.e0.result % 65536 = i.e0.result := Nat.mod_eq_of_lt v0
  have r1 : i.e1.result % 65536 = i.e1.result := Nat.mod_eq_of_lt v1
  have r2 : i.e2.result % 65536 = i.e2.result := Nat.mod_eq_of_lt v2
  refine ⟨handler_eq i s ?_ ?_ ?_, ?_, ?_, ?_, ?_⟩
  · simp [storeIndex, o0, m0, ADC_CHANNNELS_NUM, h0]
  · simp [storeIndex, o1, m1, ADC_CHANNNELS_NUM, h1]
  · simp [storeIndex, o2, m2, ADC_CHANNNELS_NUM, h2]
  · simp [handlerResult, m0]
  · simp [handlerResult, m1]
  · simp [handlerResult, m2]
  · simp [handlerResult, storedAtReportedIds, storeIndex, o0, o1, o2, m0, m1, m2, r0, r1, r2]

/-- After the three stores at the reported IDs, the slot of a reported ID holds
the most recent sample popped for it. -/
theorem storedAtReportedIds_getD (buf : List Nat) (i : IrqInput) (c : Nat)
    (hl : buf.length = ADC_CHANNNELS_NUM) (hi : chansInBounds i)
    (hc : c = i.e0.chan ∨ c = i.e1.chan ∨ c = i.e2.chan) :
    lastSampleFor i c = some ((storedAtReportedIds buf i).getD c 0) := by
  obtain ⟨h0, h1, h2⟩ := hi
  rw [← hl] at h0 h1 h2
  unfold storedAtReportedIds lastSampleFor
  by_cases e2 : i.e2.chan = c
  · subst e2
    rw [getD_set_self _ _ _ (by simpa using h2)]
    simp [List.find?]
  · rw [getD_set_other _ _ _ _ e2]
    by_cases e1 : i.e1.chan = c
    · subst e1
      rw [getD_set_self _ _ _ (by simpa using h1)]
      simp [List.find?, e2]
    · rw [getD_set_other _ _ _ _ e1]
      have e0 : i.e0.chan = c := by
        rcases hc with h | h | h
        · exact h.symm
        · exact absurd h.symm e1
        · exact absurd h.symm e2
      subst e0
      rw [getD_set_self _ _ _ h0]
      simp [List.find?, e2, e1]

/-- C3: whenever an iteration of the main loop prints (the flag is non-zero),
for every value of the three channel IDs below 16 and every buffer content, the
bytes it writes are exactly ESC[2J ESC[;H, then the text
`ADC Result - AN_A<id0>: 0x<h0>, AN_A<id1>: 0x<h1>, AN_A<id2>: 0x<h2>` with
`<idK>` = `channel_idK` in decimal and `<hK>` = `adc_result_buf[channel_idK]` in
unpadded lowercase hexadecimal, then CR LF CR LF. -/
theorem main_loop_prints_exact_bytes (s : State) (hflag : s.adc_conversion_done ≠ 0)
    (hids : idsInBounds s) :
    ∃ s', main_loop_iteration s = some s' ∧
      s'.uart = s.uart ++
        ([Char.ofNat 27, '[', '2', 'J', Char.ofNat 27, '[', ';', 'H'] ++
          resultLine s.channel_id0 (s.adc_result_buf.getD s.channel_id0 0)
            s.channel_id1 (s.adc_result_buf.getD s.channel_id1 0)
            s.channel_id2 (s.adc_result_buf.getD s.channel_id2 0)) :=
  ⟨printedState s, main_loop_iteration_print s hflag hids, rfl⟩

theorem main_loop_prints_exact_bytes_witness :
    ∃ s', main_loop_iteration sampleState = some s' ∧
      s'.uart = "\x1b[2J\x1b[;HADC Result - AN_A0: 0x111, AN_A1: 0x222, AN_A7: 0xabc\r\n\r\n".toList := by
  obtain ⟨s', h, hu⟩ := main_loop_prints_exact_bytes sampleState (by decide) (by decide)
  exact ⟨s', h, hu.trans (by decide)⟩

/-- C8: one main-loop iteration, for every state. With the flag 0 it prints
nothing and changes no state. With the flag non-zero it sets the flag to 0 and
prints the three results once. In both cases `adc_result_buf` and the three
channel-ID variables are left as they were (and so are the LED and the
peripheral calls). With the flag non-zero the iteration is defined exactly when
the three channel IDs index inside the array. -/
theorem main_loop_iteration_frame :
    (∀ s : State, s.adc_conversion_done = 0 → main_loop_iteration s = some s) ∧
    (∀ s s' : State, s.adc_conversion_done ≠ 0 → main_loop_iteration s = some s' →
      s'.adc_conversion_done = 0 ∧ s'.uart = s.uart ++ printedBytes s) ∧
    (∀ s s' : State, main_loop_iteration s = some s' →
      s'.adc_result_buf = s.adc_result_buf ∧ s'.channel_id0 = s.channel_id0 ∧
      s'.channel_id1 = s.channel_id1 ∧ s'.channel_id2 = s.channel_id2 ∧
      s'.led = s.led ∧ s'.hw = s.hw) ∧
    (∀ s : State, s.adc_conversion_done ≠ 0 →
      (idsInBounds s ↔ ∃ s', main_loop_iteration s = some s')) := by
  refine ⟨main_loop_iteration_idle, ?_, ?_, ?_⟩
  · intro s s' hflag h
    rcases main_loop_iteration_some s s' h with ⟨h0, _⟩ | ⟨_, _, rfl⟩
    · exact absurd h0 hflag
    · exact ⟨rfl, rfl⟩
  · intro s s' h
    rcases main_loop_iteration_some s s' h with ⟨_, rfl⟩ | ⟨_, _, rfl⟩
    · exact ⟨rfl, rfl, rfl, rfl, rfl, rfl⟩
    · exact ⟨rfl, rfl, rfl, rfl, rfl, rfl⟩
  · intro s hflag
    constructor
    · intro hids
      exact ⟨printedState s, main_loop_iteration_print s hflag hids⟩
    · rintro ⟨s', h⟩
      rcases main_loop_iteration_some s s' h with ⟨h0, _⟩ | ⟨_, hb, _⟩
      · exact absurd h0 hflag
      · exact hb

theorem main_loop_iteration_frame_witness :
    main_loop_iteration (bootState false) = some (bootState false) ∧
    (∃ s', main_loop_iteration sampleState = some s' ∧ s'.adc_conversion_done = 0 ∧
      s'.uart = sampleState.uart ++ printedBytes sampleState ∧
      s'.adc_result_buf = sampleState.adc_result_buf ∧ s'.channel_id0 = 0 ∧
      s'.channel_id1 = 1 ∧ s'.channel_id2 = 7) := by
  refine ⟨main_loop_iteration_frame.1 _ (by decide), ?_⟩
  obtain ⟨s', h⟩ := (main_loop_iteration_frame.2.2.2 sampleState (by decide)).1 (by decide)
  obtain ⟨hf, hu⟩ := main_loop_iteration_frame.2.1 sampleState s' (by decide) h
  obtain ⟨hb, h0, h1, h2, _, _⟩ := main_loop_iteration_frame.2.2.1 sampleState s' h
  exact ⟨s', h, hf, hu, hb, h0, h1, h2⟩

/-! ## The LED -/

theorem runHandlers_led (ins : List IrqInput) :
    ∀ s s' : State, runHandlers ins s = some s' → s'.led = flipped ins.length s.led := by
  induction ins with
  | nil =>
    intro s s' h
    simp only [runHandlers, Option.some.injEq] at h
    subst h
    rfl
  | cons i rest ih =>
    intro s s' h
    cases h1 : user_tcpwm_intr_handler i s with
    | none => simp [runHandlers, h1] at h
    | some s1 =>
      simp only [runHandlers, h1] at h
      have hl : s1.led = !s.led := by
        rw [((handler_some_iff i s s1).1 h1).2]; rfl
      rw [ih s1 s' h, hl]
      simp [flipped, Function.iterate_succ_apply]

theorem runHandlers_defined (ins : List IrqInput) :
    ∀ s : State, idsInBounds s → (∀ i ∈ ins, chansInBounds i) →
      ∃ s', runHandlers ins s = some s' ∧ idsInBounds s' ∧ s'.uart = s.uart := by
  induction ins with
  | nil =>
    intro s hs _
    exact ⟨s, rfl, hs, rfl⟩
  | cons i rest ih =>
    intro s hs hall
    have hi : chansInBounds i := hall i (List.mem_cons_self _ _)
    obtain ⟨s', h', hb, hu⟩ := ih (handlerResult i s) (handlerResult_idsInBounds i s hi)
      (fun j hj => hall j (List.mem_cons_of_mem _ hj))
    refine ⟨s', ?_, hb, hu⟩
    simp only [runHandlers, handler_defined i s hs hi]
    exact h'

/-- C7: every run of `user_tcpwm_intr_handler`, whatever the interrupt status
and the FIFO contents, makes exactly one `Cy_GPIO_Inv` call and inverts the LED
once; a main-loop iteration changes neither the LED nor the calls made; hence
after `n` handler runs the LED equals its initial level flipped `n` times. The
runs are defined whenever the channel IDs index inside the array. -/
theorem led_inverted_once_per_handler_run :
    (∀ (i : IrqInput) (s s' : State), user_tcpwm_intr_handler i s = some s' →
      s'.led = !s.led ∧
      ∃ calls, s'.hw = s.hw ++ calls ∧ calls.count HwCall.Cy_GPIO_Inv = 1) ∧
    (∀ s s' : State, main_loop_iteration s = some s' → s'.led = s.led ∧ s'.hw = s.hw) ∧
    (∀ (ins : List IrqInput) (s s' : State), runHandlers ins s = some s' →
      s'.led = flipped ins.length s.led) ∧
    (∀ (ins : List IrqInput) (s : State), idsInBounds s → (∀ i ∈ ins, chansInBounds i) →
      ∃ s', runHandlers ins s = some s') := by
  refine ⟨?_, ?_, runHandlers_led, ?_⟩
  · intro i s s' h
    rw [((handler_some_iff i s s').1 h).2]
    refine ⟨rfl, _, rfl, ?_⟩
    simp [List.count_cons]
  · intro s s' h
    rcases main_loop_iteration_some s s' h with ⟨_, rfl⟩ | ⟨_, _, rfl⟩
    · exact ⟨rfl, rfl⟩
    · exact ⟨rfl, rfl⟩
  · intro ins s hs hall
    obtain ⟨s', h, _, _⟩ := runHandlers_defined ins s hs hall
    exact ⟨s', h⟩

theorem led_inverted_once_per_handler_run_witness :
    ∃ s', runHandlers [firstIrqIndexFirst, irqCallFirst, firstIrqIndexFirst] (bootState false)
        = some s' ∧ s'.led = true := by
  obtain ⟨s', h⟩ := led_inverted_once_per_handler_run.2.2.2
    [firstIrqIndexFirst, irqCallFirst, firstIrqIndexFirst] (bootState false)
    (by decide) (by decide)
  exact ⟨s', h, (led_inverted_once_per_handler_run.2.2.1 _ _ _ h).trans (by decide)⟩

/-! ## Array bounds -/

/-- C9: when every FIFO read reports a channel ID in `0..15`, the predicate
"the three channel IDs are below 16" holds in the initial state and is preserved
by every handler run and every main-loop iteration, and under it the three store
indices of the handler and the three read indices of the main loop are inside the
16-slot array (both are defined). Without the precondition some FIFO input
puts an index outside the array: with a reported ID of 16, under every
evaluation order, the handler run followed by one main-loop iteration has an
access outside the array. -/
theorem channel_ids_stay_in_bounds :
    (∀ led : Bool, idsInBounds (bootState led)) ∧
    (∀ (i : IrqInput) (s : State), idsInBounds s → chansInBounds i →
      storeIndex i.ord0 i.e0 s.channel_id0 < ADC_CHANNNELS_NUM ∧
      storeIndex i.ord1 i.e1 s.channel_id1 < ADC_CHANNNELS_NUM ∧
      storeIndex i.ord2 i.e2 s.channel_id2 < ADC_CHANNNELS_NUM ∧
      ∃ s', user_tcpwm_intr_handler i s = some s' ∧ idsInBounds s') ∧
    (∀ s : State, idsInBounds s →
      ∃ s', main_loop_iteration s = some s' ∧ idsInBounds s') ∧
    (∀ (led : Bool) (intrStatus : Nat) (o0 o1 o2 : EvalOrder),
      (user_tcpwm_intr_handler (irqChan16 intrStatus o0 o1 o2) (bootState led)).bind
        main_loop_iteration = none) := by
  refine ⟨fun led => by simp [idsInBounds, bootState, ADC_CHANNNELS_NUM], ?_, ?_, ?_⟩
  · intro i s hs hi
    exact ⟨storeIndex_lt _ _ _ hs.1 hi.1, storeIndex_lt _ _ _ hs.2.1 hi.2.1,
      storeIndex_lt _ _ _ hs.2.2 hi.2.2, handlerResult i s, handler_defined i s hs hi,
      handlerResult_idsInBounds i s hi⟩
  · intro s hs
    by_cases hflag : s.adc_conversion_done = 0
    · exact ⟨s, main_loop_iteration_idle s hflag, hs⟩
    · exact ⟨printedState s, main_loop_iteration_print s hflag hs, hs⟩
  · intro led intrStatus o0 o1 o2
    cases h : user_tcpwm_intr_handler (irqChan16 intrStatus o0 o1 o2) (bootState led) with
    | none => rfl
    | some s1 =>
      have h1 := ((handler_some_iff _ _ s1).1 h).2
      have hflag : s1.adc_conversion_done ≠ 0 := by rw [h1]; simp [handlerResult]
      have hid : ¬ idsInBounds s1 := by
        rw [h1]; simp [idsInBounds, handlerResult, irqChan16, ADC_CHANNNELS_NUM]
      cases h2 : main_loop_iteration s1 with
      | none => simp [Option.bind, h2]
      | some s2 =>
        rcases main_loop_iteration_some s1 s2 h2 with ⟨h0, _⟩ | ⟨_, hb, _⟩
        · exact absurd h0 hflag
        · exact absurd hb hid

theorem channel_ids_stay_in_bounds_witness :
    (∃ s', user_tcpwm_intr_handler firstIrqIndexFirst (bootState true) = some s' ∧
      idsInBounds s') ∧
    (∃ s', main_loop_iteration sampleState = some s' ∧ idsInBounds s') :=
  ⟨(channel_ids_stay_in_bounds.2.1 firstIrqIndexFirst (bootState true)
      (by decide) (by decide)).2.2.2,
    channel_ids_stay_in_bounds.2.2.1 sampleState (by decide)⟩

/-! ## Several interrupts before the loop looks -/

theorem runHandlers_last (ins : List IrqInput) :
    ∀ (s s' : State) (last : IrqInput), runHandlers ins s = some s' →
      ins.getLast? = some last →
      s'.adc_conversion_done = 1 ∧ s'.channel_id0 = last.e0.chan % 256 ∧
      s'.channel_id1 = last.e1.chan % 256 ∧ s'.channel_id2 = last.e2.chan % 256 := by
  induction ins with
  | nil =>
    intro s s' last _ hl
    simp at hl
  | cons i rest ih =>
    intro s s' last h hl
    cases h1 : user_tcpwm_intr_handler i s with
    | none => simp [runHandlers, h1] at h
    | some s1 =>
      simp only [runHandlers, h1] at h
      cases rest with
      | nil =>
        simp only [runHandlers, Option.some.injEq] at h
        simp only [List.getLast?_singleton, Option.some.injEq] at hl
        subst h hl
        rw [((handler_some_iff i s s1).1 h1).2]
        exact ⟨rfl, rfl, rfl, rfl⟩
      | cons j rest' =>
        rw [List.getLast?_cons_cons] at hl
        exact ih s1 s' last h hl

/-- C10: when the handler runs two or more times with no main-loop iteration in
between (all channel IDs below 16), the next main-loop iteration prints exactly
one line, the line reports the channel IDs of the last handler run and the
current buffer values at those IDs, and the iteration after it prints nothing
and changes nothing: the earlier interrupts are coalesced into one print. -/
theorem interrupts_coalesce_into_one_print (ins : List IrqInput) (s : State)
    (hlen : 2 ≤ ins.length) (hs : idsInBounds s) (hall : ∀ i ∈ ins, chansInBounds i) :
    ∃ last s1 s2, ins.getLast? = some last ∧ runHandlers ins s = some s1 ∧
      main_loop_iteration s1 = some s2 ∧
      s2.uart = s.uart ++ (clearScreenBytes ++
        resultLine last.e0.chan (s1.adc_result_buf.getD last.e0.chan 0)
          last.e1.chan (s1.adc_result_buf.getD last.e1.chan 0)
          last.e2.chan (s1.adc_result_buf.getD last.e2.chan 0)) ∧
      main_loop_iteration s2 = some s2 := by
  obtain ⟨s1, h1, hb1, hu1⟩ := runHandlers_defined ins s hs hall
  have hne : ins ≠ [] := by
    intro h
    rw [h] at hlen
    simp at hlen
  have hlast : ins.getLast? = some (ins.getLast hne) := List.getLast?_eq_getLast _ hne
  have hmem : chansInBounds (ins.getLast hne) := hall _ (List.getLast_mem hne)
  obtain ⟨hf, c0, c1, c2⟩ := runHandlers_last ins s s1 _ h1 hlast
  obtain ⟨m0, m1, m2⟩ := hmem
  unfold ADC_CHANNNELS_NUM at m0 m1 m2
  rw [Nat.mod_eq_of_lt (by omega)] at c0 c1 c2
  have hflag : s1.adc_conversion_done ≠ 0 := by rw [hf]; decide
  refine ⟨ins.getLast hne, s1, printedState s1, hlast, h1,
    main_loop_iteration_print s1 hflag hb1, ?_, ?_⟩
  · simp [printedState, printedBytes, printedLine, hu1, c0, c1, c2]
  · exact main_loop_iteration_idle _ rfl

theorem interrupts_coalesce_into_one_print_witness :
    ∃ s1 s2, runHandlers [firstIrqIndexFirst, irqCallFirst] (bootState false) = some s1 ∧
      main_loop_iteration s1 = some s2 ∧
      s2.uart = "\x1b[2J\x1b[;HADC Result - AN_A0: 0x444, AN_A1: 0x555, AN_A7: 0x666\r\n\r\n".toList ∧
      main_loop_iteration s2 = some s2 := by
  obtain ⟨last, s1, s2, hl, h1, h2, hu, h3⟩ := interrupts_coalesce_into_one_print
    [firstIrqIndexFirst, irqCallFirst] (bootState false) (by decide) (by decide) (by decide)
  have hlast : last = irqCallFirst := by
    simp only [List.getLast?_cons_cons, List.getLast?_singleton, Option.some.injEq] at hl
    exact hl.symm
  have hs1 : s1 = handlerResult irqCallFirst (handlerResult firstIrqIndexFirst (bootState false)) := by
    have hr : runHandlers [firstIrqIndexFirst, irqCallFirst] (bootState false)
        = some (handlerResult irqCallFirst (handlerResult firstIrqIndexFirst (bootState false))) := by
      decide
    rw [hr] at h1
    exact (Option.some.inj h1).symm
  subst hlast hs1
  exact ⟨_, s2, h1, h2, hu.trans (by decide), h3⟩

/-! ## Initialisation -/

/-- When one of the six calls whose status `main` tests reports failure, `main`
halts there: the failing call is the last call made, global interrupts are not
enabled, the timer is not started and the loop is not entered. -/
theorem main_init_halts_on_checked_failure (r : InitResults) (h : ¬ checkedCallsSucceed r) :
    (main_init r).outcome = Outcome.halted ∧
    HwCall.__enable_irq ∉ (main_init r).calls ∧
    HwCall.Cy_TCPWM_TriggerStart_Single ∉ (main_init r).calls ∧
    (main_init r).calls <+: callsBeforeEnableIrq ∧
    (main_init r).calls.length < 8 := by
  by_cases a : r.cybsp_init = Status.success
  · by_cases b : r.Cy_HPPASS_AC_Start = Status.success
    · by_cases c : r.Cy_SCB_UART_Init = Status.success
      · by_cases d : r.mtb_hal_uart_setup = Status.success
        · by_cases e : r.cy_retarget_io_init = Status.success
          · by_cases f : r.Cy_TCPWM_PWM_Init = Status.success
            · exact absurd ⟨a, b, c, d, e, f⟩ h
            · have f' : ¬ Status.success = r.Cy_TCPWM_PWM_Init := fun x => f x.symm
              simp [main_init, CY_ASSERT_0, a, b, c, d, e, f', callsBeforeEnableIrq]
          · simp [main_init, CY_ASSERT_0, a, b, c, d, e, callsBeforeEnableIrq]
        · simp [main_init, CY_ASSERT_0, a, b, c, d, callsBeforeEnableIrq]
      · simp [main_init, CY_ASSERT_0, a, b, c, callsBeforeEnableIrq]
    · have b' : ¬ Status.success = r.Cy_HPPASS_AC_Start := fun x => b x.symm
      simp [main_init, CY_ASSERT_0, a, b', callsBeforeEnableIrq]
  · simp [main_init, CY_ASSERT_0, a, callsBeforeEnableIrq]

/-- C4, evaluated on the code: when every call succeeds except `Cy_SysInt_Init`,
`main` does not halt: it goes on to `NVIC_EnableIRQ`, enables global interrupts,
starts the timer and enters the loop. -/
theorem main_init_ignores_sysint_failure :
    sysIntInitFails.Cy_SysInt_Init = Status.failure ∧
    main_init sysIntInitFails =
      { calls := callsBeforeEnableIrq ++
          [HwCall.__enable_irq, HwCall.Cy_TCPWM_TriggerStart_Single]
        outcome := Outcome.entersLoop } := by
  decide

/-- C5 as stated fails: after a fully successful initialisation the loop is
entered, and the last call made before it is `Cy_TCPWM_TriggerStart_Single`,
which comes after `__enable_irq`; `__enable_irq` is not the final call. -/
theorem enable_irq_is_not_final_step :
    (main_init allSuccess).outcome = Outcome.entersLoop ∧
    (main_init allSuccess).calls.getLast? = some HwCall.Cy_TCPWM_TriggerStart_Single ∧
    ¬ ((main_init allSuccess).calls.getLast? = some HwCall.__enable_irq) ∧
    ∃ pre post, (main_init allSuccess).calls = pre ++ [HwCall.__enable_irq] ++ post ∧
      post ≠ [] := by
  refine ⟨by decide, by decide, by decide, callsBeforeEnableIrq,
    [HwCall.Cy_TCPWM_TriggerStart_Single], by decide, by decide⟩

/-- C5, amended: on a successful initialisation the loop is entered and
`__enable_irq` is the last call but one: it is made once, after all the set-up
calls, and exactly one call follows it before the loop, the timer start
`Cy_TCPWM_TriggerStart_Single`. -/
theorem enable_irq_then_timer_start (r : InitResults) (h : checkedCallsSucceed r) :
    (main_init r).outcome = Outcome.entersLoop ∧
    (main_init r).calls = callsBeforeEnableIrq ++
      [HwCall.__enable_irq, HwCall.Cy_TCPWM_TriggerStart_Single] ∧
    HwCall.__enable_irq ∉ callsBeforeEnableIrq := by
  obtain ⟨a, b, c, d, e, f⟩ := h
  refine ⟨?_, ?_, by decide⟩
  · simp [main_init, a, b, c, d, e, f]
  · simp [main_init, a, b, c, d, e, f, callsBeforeEnableIrq]

theorem enable_irq_then_timer_start_witness :
    checkedCallsSucceed allSuccess ∧
    (main_init allSuccess).calls = callsBeforeEnableIrq ++
      [HwCall.__enable_irq, HwCall.Cy_TCPWM_TriggerStart_Single] :=
  ⟨by decide, (enable_irq_then_timer_start allSuccess (by decide)).2.1⟩

/-! ## Prints and handler runs in interleaved executions -/

theorem sysStep_credit (ev : Event) (y y1 : Sys) (l : Label)
    (h : sysStep ev y = some (l, y1)) :
    [l].count Label.printLine + printCredit y1 ≤ [l].count Label.handlerRun + printCredit y := by
  obtain ⟨pc, st⟩ := y
  cases ev with
  | irq i =>
    cases h1 : user_tcpwm_intr_handler i st with
    | none => simp [sysStep, h1] at h
    | some s1 =>
      simp only [sysStep, h1, Option.some.injEq, Prod.mk.injEq] at h
      obtain ⟨rfl, rfl⟩ := h
      have hf : s1.adc_conversion_done = 1 := by
        rw [((handler_some_iff i st s1).1 h1).2]; rfl
      cases pc <;> simp [printCredit, hf] <;> split <;> omega
  | main =>
    cases pc with
    | test =>
      by_cases hf : st.adc_conversion_done = 0
      · simp only [sysStep, mainStep, hf, ne_eq, not_true_eq_false, if_false,
          Option.some.injEq, Prod.mk.injEq] at h
        obtain ⟨rfl, rfl⟩ := h
        simp [printCredit, hf, MainPc.label]
      · simp only [sysStep, mainStep, hf, ne_eq, not_false_eq_true, if_true,
          Option.some.injEq, Prod.mk.injEq] at h
        obtain ⟨rfl, rfl⟩ := h
        simp [printCredit, hf, MainPc.label]
    | clear =>
      simp only [sysStep, mainStep, Option.some.injEq, Prod.mk.injEq] at h
      obtain ⟨rfl, rfl⟩ := h
      simp [printCredit, clearFlag, MainPc.label]
    | printEsc =>
      simp only [sysStep, mainStep, Option.some.injEq, Prod.mk.injEq] at h
      obtain ⟨rfl, rfl⟩ := h
      simp [printCredit, printClearScreen, MainPc.label]
    | printLine =>
      cases h1 : printResults st with
      | none => simp [sysStep, mainStep, h1] at h
      | some s1 =>
        simp only [sysStep, mainStep, h1, Option.some.injEq, Prod.mk.injEq] at h
        obtain ⟨rfl, rfl⟩ := h
        have hf : s1.adc_conversion_done = st.adc_conversion_done := by
          rw [((printResults_some_iff st s1).1 h1).2]
        simp [printCredit, hf, MainPc.label]

theorem exec_credit (sched : List Event) :
    ∀ (y y' : Sys) (ls : List Label), exec sched y = some (ls, y') →
      ls.count Label.printLine + printCredit y' ≤ ls.count Label.handlerRun + printCredit y := by
  induction sched with
  | nil =>
    intro y y' ls h
    simp only [exec, Option.some.injEq, Prod.mk.injEq] at h
    obtain ⟨rfl, rfl⟩ := h
    simp
  | cons ev rest ih =>
    intro y y' ls h
    cases h1 : sysStep ev y with
    | none => simp [exec, h1] at h
    | some p1 =>
      obtain ⟨l, y1⟩ := p1
      cases h2 : exec rest y1 with
      | none => simp [exec, h1, h2] at h
      | some p2 =>
        obtain ⟨ls2, y2⟩ := p2
        simp only [exec, h1, h2, Option.some.injEq, Prod.mk.injEq] at h
        obtain ⟨rfl, rfl⟩ := h
        have a := sysStep_credit ev y y1 l h1
        have b := ih y1 y2 ls2 h2
        have c1 : (l :: ls2).count Label.printLine
            = [l].count Label.printLine + ls2.count Label.printLine := by
          rw [← List.count_append]; rfl
        have c2 : (l :: ls2).count Label.handlerRun
            = [l].count Label.handlerRun + ls2.count Label.handlerRun := by
          rw [← List.count_append]; rfl
        omega

theorem exec_handlerRuns (sched : List Event) :
    ∀ (y y' : Sys) (ls : List Label), exec sched y = some (ls, y') →
      ls.count Label.handlerRun = irqCount sched := by
  induction sched with
  | nil =>
    intro y y' ls h
    simp only [exec, Option.some.injEq, Prod.mk.injEq] at h
    obtain ⟨rfl, rfl⟩ := h
    rfl
  | cons ev rest ih =>
    intro y y' ls h
    cases h1 : sysStep ev y with
    | none => simp [exec, h1] at h
    | some p1 =>
      obtain ⟨l, y1⟩ := p1
      cases h2 : exec rest y1 with
      | none => simp [exec, h1, h2] at h
      | some p2 =>
        obtain ⟨ls2, y2⟩ := p2
        simp only [exec, h1, h2, Option.some.injEq, Prod.mk.injEq] at h
        obtain ⟨rfl, rfl⟩ := h
        have b := ih y1 y2 ls2 h2
        cases ev with
        | irq i =>
          cases h3 : user_tcpwm_intr_handler i y.st with
          | none => simp [sysStep, h3] at h1
          | some s1 =>
            simp only [sysStep, h3, Option.some.injEq, Prod.mk.injEq] at h1
            obtain ⟨rfl, _⟩ := h1
            simp [irqCount, b]
        | main =>
          cases h3 : mainStep y.pc y.st with
          | none => simp [sysStep, h3] at h1
          | some p3 =>
            simp only [sysStep, h3, Option.some.injEq, Prod.mk.injEq] at h1
            obtain ⟨rfl, _⟩ := h1
            have hne : y.pc.label ≠ Label.handlerRun := by
              cases y.pc <;> simp [MainPc.label]
            simp [irqCount, b, List.count_cons, hne]

theorem exec_defined (sched : List Event) :
    ∀ y : Sys, idsInBounds y.st → (∀ i, Event.irq i ∈ sched → chansInBounds i) →
      ∃ ls y', exec sched y = some (ls, y') := by
  induction sched with
  | nil =>
    intro y _ _
    exact ⟨[], y, rfl⟩
  | cons ev rest ih =>
    intro y hy hall
    have hrest : ∀ i, Event.irq i ∈ rest → chansInBounds i :=
      fun i hi => hall i (List.mem_cons_of_mem _ hi)
    have key : ∃ l y1, sysStep ev y = some (l, y1) ∧ idsInBounds y1.st := by
      cases ev with
      | irq i =>
        have hi : chansInBounds i := hall i (List.mem_cons_self _ _)
        refine ⟨Label.handlerRun, { pc := y.pc, st := handlerResult i y.st }, ?_,
          handlerResult_idsInBounds i y.st hi⟩
        simp [sysStep, handler_defined i y.st hy hi]
      | main =>
        obtain ⟨pc, st⟩ := y
        cases pc with
        | test =>
          by_cases hf : st.adc_conversion_done = 0
          · exact ⟨Label.flagTest, { pc := MainPc.test, st := st },
              by simp [sysStep, mainStep, hf, MainPc.label], hy⟩
          · exact ⟨Label.flagTest, { pc := MainPc.clear, st := st },
              by simp [sysStep, mainStep, hf, MainPc.label], hy⟩
        | clear =>
          exact ⟨Label.flagClear, { pc := MainPc.printEsc, st := clearFlag st },
            by simp [sysStep, mainStep, MainPc.label], hy⟩
        | printEsc =>
          exact ⟨Label.printEscape, { pc := MainPc.printLine, st := printClearScreen st },
            by simp [sysStep, mainStep, MainPc.label], hy⟩
        | printLine =>
          refine ⟨Label.printLine,
            { pc := MainPc.test, st := { st with uart := st.uart ++ printedLine st } }, ?_, hy⟩
          simp [sysStep, mainStep, printResults_eq st hy, MainPc.label]
    obtain ⟨l, y1, h1, hy1⟩ := key
    obtain ⟨ls, y', h2⟩ := ih y1 hy1 hrest
    exact ⟨l :: ls, y', by simp [exec, h1, h2]⟩

theorem sysStep_main_label (y y1 : Sys) (l : Label) (h : sysStep Event.main y = some (l, y1)) :
    l = y.pc.label := by
  cases h3 : mainStep y.pc y.st with
  | none => simp [sysStep, h3] at h
  | some p3 =>
    simp only [sysStep, h3, Option.some.injEq, Prod.mk.injEq] at h
    exact h.1.symm

theorem sysStep_disarmed (ev : Event) (y y1 : Sys) (l : Label)
    (h : sysStep ev y = some (l, y1)) (hd : disarmed y) :
    l ≠ Label.flagClear ∧ (l ≠ Label.handlerRun → disarmed y1) := by
  obtain ⟨pc, st⟩ := y
  obtain ⟨hf, hpc⟩ := hd
  simp only at hf hpc
  cases ev with
  | irq i =>
    cases h1 : user_tcpwm_intr_handler i st with
    | none => simp [sysStep, h1] at h
    | some s1 =>
      simp only [sysStep, h1, Option.some.injEq, Prod.mk.injEq] at h
      obtain ⟨rfl, rfl⟩ := h
      exact ⟨by decide, fun hne => absurd rfl hne⟩
  | main =>
    cases pc with
    | test =>
      simp only [sysStep, mainStep, hf, ne_eq, not_true_eq_false, if_false,
        Option.some.injEq, Prod.mk.injEq] at h
      obtain ⟨rfl, rfl⟩ := h
      exact ⟨by decide, fun _ => ⟨hf, by simp⟩⟩
    | clear => exact absurd rfl hpc
    | printEsc =>
      simp only [sysStep, mainStep, Option.some.injEq, Prod.mk.injEq] at h
      obtain ⟨rfl, rfl⟩ := h
      exact ⟨by decide, fun _ => ⟨hf, by simp⟩⟩
    | printLine =>
      cases h1 : printResults st with
      | none => simp [sysStep, mainStep, h1] at h
      | some s1 =>
        simp only [sysStep, mainStep, h1, Option.some.injEq, Prod.mk.injEq] at h
        obtain ⟨rfl, rfl⟩ := h
        have hf1 : s1.adc_conversion_done = st.adc_conversion_done := by
          rw [((printResults_some_iff st s1).1 h1).2]
        exact ⟨by decide, fun _ => ⟨hf1.trans hf, by simp⟩⟩

theorem sysStep_flagClear (ev : Event) (y y1 : Sys)
    (h : sysStep ev y = some (Label.flagClear, y1)) : disarmed y1 := by
  obtain ⟨pc, st⟩ := y
  cases ev with
  | irq i =>
    cases h1 : user_tcpwm_intr_handler i st with
    | none => simp [sysStep, h1] at h
    | some s1 => simp [sysStep, h1] at h
  | main =>
    have hl := sysStep_main_label _ _ _ h
    cases pc with
    | test => simp [MainPc.label] at hl
    | clear =>
      simp only [sysStep, mainStep, Option.some.injEq, Prod.mk.injEq] at h
      obtain ⟨_, rfl⟩ := h
      exact ⟨rfl, by simp⟩
    | printEsc => simp [MainPc.label] at hl
    | printLine => simp [MainPc.label] at hl

theorem exec_disarmed (sched : List Event) :
    ∀ (y y' : Sys) (ls : List Label), exec sched y = some (ls, y') → disarmed y →
      ∀ j : Nat, ls[j]? = some Label.flagClear →
        ∃ k : Nat, k < j ∧ ls[k]? = some Label.handlerRun := by
  induction sched with
  | nil =>
    intro y y' ls h _ j hj
    simp only [exec, Option.some.injEq, Prod.mk.injEq] at h
    obtain ⟨rfl, rfl⟩ := h
    simp at hj
  | cons ev rest ih =>
    intro y y' ls h hd j hj
    cases h1 : sysStep ev y with
    | none => simp [exec, h1] at h
    | some p1 =>
      obtain ⟨l, y1⟩ := p1
      cases h2 : exec rest y1 with
      | none => simp [exec, h1, h2] at h
      | some p2 =>
        obtain ⟨ls2, y2⟩ := p2
        simp only [exec, h1, h2, Option.some.injEq, Prod.mk.injEq] at h
        obtain ⟨rfl, rfl⟩ := h
        obtain ⟨hne, hnext⟩ := sysStep_disarmed ev y y1 l h1 hd
        cases j with
        | zero =>
          simp only [List.getElem?_cons_zero, Option.some.injEq] at hj
          exact absurd hj hne
        | succ j' =>
          simp only [List.getElem?_cons_succ] at hj
          by_cases hl : l = Label.handlerRun
          · exact ⟨0, Nat.succ_pos _, by simp [hl]⟩
          · obtain ⟨k, hk, hk'⟩ := ih y1 y2 ls2 h2 (hnext hl) j' hj
            exact ⟨k + 1, Nat.succ_lt_succ hk, by simpa using hk'⟩

theorem exec_setAgainBetweenClears (sched : List Event) :
    ∀ (y y' : Sys) (ls : List Label), exec sched y = some (ls, y') →
      SetAgainBetweenClears ls := by
  induction sched with
  | nil =>
    intro y y' ls h i j _ hi _
    simp only [exec, Option.some.injEq, Prod.mk.injEq] at h
    obtain ⟨rfl, rfl⟩ := h
    simp at hi
  | cons ev rest ih =>
    intro y y' ls h i j hij hi hj
    cases h1 : sysStep ev y with
    | none => simp [exec, h1] at h
    | some p1 =>
      obtain ⟨l, y1⟩ := p1
      cases h2 : exec rest y1 with
      | none => simp [exec, h1, h2] at h
      | some p2 =>
        obtain ⟨ls2, y2⟩ := p2
        simp only [exec, h1, h2, Option.some.injEq, Prod.mk.injEq] at h
        obtain ⟨rfl, rfl⟩ := h
        cases j with
        | zero => exact absurd hij (Nat.not_lt_zero _)
        | succ j' =>
          simp only [List.getElem?_cons_succ] at hj
          cases i with
          | zero =>
            simp only [List.getElem?_cons_zero, Option.some.injEq] at hi
            subst hi
            obtain ⟨k, hk, hk'⟩ :=
              exec_disarmed rest y1 y2 ls2 h2 (sysStep_flagClear ev y y1 h1) j' hj
            exact ⟨k + 1, Nat.succ_pos _, Nat.succ_lt_succ hk, by simpa using hk'⟩
          | succ i' =>
            simp only [List.getElem?_cons_succ] at hi
            obtain ⟨k, hk1, hk2, hk'⟩ := ih y1 y2 ls2 h2 i' j' (Nat.lt_of_succ_lt_succ hij) hi hj
            exact ⟨k + 1, Nat.succ_lt_succ hk1, Nat.succ_lt_succ hk2, by simpa using hk'⟩

/-- C6 as stated fails: in the execution interrupt A, flag test, flag clear,
interrupt B, print, flag test, flag clear, print, no handler run lies between the
two prints, and both printed lines report the samples of interrupt B. -/
theorem race_prints_same_interrupt_twice :
    (exec raceSchedule (bootSys false)).map (fun p => p.1) =
      some [Label.handlerRun, Label.flagTest, Label.flagClear, Label.handlerRun,
            Label.printEscape, Label.printLine, Label.flagTest, Label.flagClear,
            Label.printEscape, Label.printLine] ∧
    ¬ SetAgainBetweenPrints
      [Label.handlerRun, Label.flagTest, Label.flagClear, Label.handlerRun,
       Label.printEscape, Label.printLine, Label.flagTest, Label.flagClear,
       Label.printEscape, Label.printLine] ∧
    (exec raceSchedule (bootSys false)).map (fun p => p.2.st.uart) =
      some
        ("\x1b[2J\x1b[;HADC Result - AN_A0: 0x444, AN_A1: 0x555, AN_A7: 0x666\r\n\r\n".toList ++
         "\x1b[2J\x1b[;HADC Result - AN_A0: 0x444, AN_A1: 0x555, AN_A7: 0x666\r\n\r\n".toList) := by
  refine ⟨by decide, ?_, by decide⟩
  intro h
  obtain ⟨k, h1, h2, h3⟩ := h 5 9 (by decide) (by decide) (by decide)
  interval_cases k <;> simp at h3

/-- C6, amended: in every execution that interleaves handler runs with the
steps of the main loop, started when the loop is entered, the flag is set again
by a handler run between any two flag clears, so the number of result lines
printed never exceeds the number of handler runs (which is the number of
interrupts of the schedule); and every schedule whose FIFO reads report channel
IDs below 16 has such an execution. -/
theorem prints_never_exceed_handler_runs (led : Bool) (sched : List Event) :
    (∀ (ls : List Label) (y : Sys), exec sched (bootSys led) = some (ls, y) →
      SetAgainBetweenClears ls ∧
      ls.count Label.printLine ≤ ls.count Label.handlerRun ∧
      ls.count Label.handlerRun = irqCount sched) ∧
    ((∀ i, Event.irq i ∈ sched → chansInBounds i) →
      ∃ ls y, exec sched (bootSys led) = some (ls, y)) := by
  constructor
  · intro ls y h
    have a := exec_credit sched (bootSys led) y ls h
    have c : printCredit (bootSys led) = 0 := rfl
    exact ⟨exec_setAgainBetweenClears sched _ _ _ h, by omega, exec_handlerRuns sched _ _ _ h⟩
  · intro hall
    exact exec_defined sched (bootSys led) (by simp [bootSys, idsInBounds, bootState, ADC_CHANNNELS_NUM]) hall

theorem prints_never_exceed_handler_runs_witness :
    ∃ ls y, exec raceSchedule (bootSys false) = some (ls, y) ∧
      ls.count Label.printLine ≤ ls.count Label.handlerRun ∧
      ls.count Label.handlerRun = 2 := by
  have hall : ∀ i, Event.irq i ∈ raceSchedule → chansInBounds i := by
    intro i hi
    simp only [raceSchedule, List.mem_cons, Event.irq.injEq, List.mem_singleton,
      reduceCtorEq, or_false, false_or, List.not_mem_nil] at hi
    rcases hi with rfl | rfl <;> decide
  obtain ⟨ls, y, h⟩ := (prints_never_exceed_handler_runs false raceSchedule).2 hall
  obtain ⟨_, a, b⟩ := (prints_never_exceed_handler_runs false raceSchedule).1 ls y h
  exact ⟨ls, y, h, a, b.trans (by decide)⟩

end AdcExample
